import Mathlib

/-!
Verification of the document-acquisition / corpus-combination pipeline of
`ask-caa-nz` (`scripts/combine_md.js` and its sibling scripts) against its
natural-language specification.

Text is modelled as `List Char` (bytes of the payloads are likewise modelled
as characters; only their count and leading values matter to the checked
properties).  Each definition is a direct translation of the corresponding
JavaScript function; the file system and the YAML parser appear as explicit
function parameters, since the scripts access them through `fs` and the
`yaml` package.
-/

namespace AskCaaNz

/-- JavaScript `\s` (as used by `replace(/\s+$/,'')`, `trim`, `trimEnd`):
space, tab, line feed, vertical tab, form feed, carriage return, NBSP and
the Unicode space separators recognised by the `\s` character class. -/
def isWs (c : Char) : Bool :=
  c = ' ' || c = '\t' || c = '\n' || c = Char.ofNat 11 || c = Char.ofNat 12 ||
  c = '\r' || c = Char.ofNat 160 || c = Char.ofNat 0x1680 ||
  (0x2000 ≤ c.toNat && c.toNat ≤ 0x200a) ||
  c = Char.ofNat 0x2028 || c = Char.ofNat 0x2029 || c = Char.ofNat 0x202f ||
  c = Char.ofNat 0x205f || c = Char.ofNat 0x3000 || c = Char.ofNat 0xfeff

/-- `line.replace(/\s+$/, '')` and `body.trimEnd()`: remove trailing
whitespace. -/
def rstrip (l : List Char) : List Char :=
  (l.reverse.dropWhile isWs).reverse

/-- JavaScript `String.prototype.trim()`: strip leading and trailing
whitespace. -/
def trimChars (l : List Char) : List Char :=
  rstrip (l.dropWhile isWs)

/-- Prepend a character to the first chunk of a split result. -/
def consHead (c : Char) : List (List Char) → List (List Char)
  | [] => [[c]]
  | l :: ls => (c :: l) :: ls

/-- `text.split(/\r?\n/)`: split at each `\n`, also consuming an
immediately preceding `\r`.  Always returns at least one (possibly empty)
line, like the JavaScript `split`. -/
def splitLines : List Char → List (List Char)
  | [] => [[]]
  | [c] => if c = '\n' then [[], []] else [[c]]
  | c :: d :: rest =>
    if c = '\n' then [] :: splitLines (d :: rest)
    else if c = '\r' && d = '\n' then [] :: splitLines rest
    else consHead c (splitLines (d :: rest))

/-- `lines.join('\n')` / `parts.join('\n')`. -/
def joinLines : List (List Char) → List Char
  | [] => []
  | [l] => l
  | l :: ls => l ++ '\n' :: joinLines ls

/-- The loop body of `normalizeTextToMarkdown`: strip each line's trailing
whitespace; keep non-blank lines; keep at most two consecutive blank lines
(the `blankCount` counter of the script). -/
def compactAux : Nat → List (List Char) → List (List Char)
  | _, [] => []
  | bc, l :: ls =>
    let t := rstrip l
    if t = [] then
      if bc + 1 ≤ 2 then [] :: compactAux (bc + 1) ls else compactAux (bc + 1) ls
    else t :: compactAux 0 ls

/-- `normalizeTextToMarkdown(text)` from `convert_pdf_to_md.js` /
`download_and_convert_caa.js`: split into physical lines, strip trailing
whitespace per line, collapse runs of 3+ blank lines to exactly 2, join
with `\n`. -/
def normalizeTextToMarkdown (s : List Char) : List Char :=
  joinLines (compactAux 0 (splitLines s))

def blanksOK : Nat → List (List Char) → Prop
  | _, [] => True
  | bc, l :: ls =>
    if l = [] then bc + 1 ≤ 2 ∧ blanksOK (bc + 1) ls
    else rstrip l = l ∧ l ≠ [] ∧ blanksOK 0 ls

def blRunsOK : Nat → List (List Char) → Bool
  | _, [] => true
  | n, l :: ls =>
    if rstrip l = [] then decide (n + 1 ≤ 2) && blRunsOK (n + 1) ls
    else blRunsOK 0 ls

/-- A line carries no trailing whitespace. -/
def noTrailWS (l : List Char) : Bool := decide (rstrip l = l)

structure Entry where
  part : Nat
  name : List Char
  url : List Char
  md : Option (List Char)
  pdf : Option (List Char)
deriving DecidableEq

/-- `zeroPadPart(part)`: `String(part).padStart(3, '0')`. -/
def zeroPadPart (n : Nat) : List Char :=
  let s := (toString n).data
  List.replicate (3 - s.length) '0' ++ s

def computeDefaultPdfPath (part : Nat) : List Char :=
  "download/car/Part_".data ++ zeroPadPart part ++ "_Consolidation.pdf".data

/-- The PDF output path of an entry: the `pdf` override when it is a
non-blank string, else the default path. -/
def pdfPath (e : Entry) : List Char :=
  match e.pdf with
  | some p => if trimChars p = [] then computeDefaultPdfPath e.part else p
  | none => computeDefaultPdfPath e.part

/-- An HTTP response as assembled by `fetchWithRedirects`: final status
code, the `content-type` header (empty when the header was missing, as
`res.headers['content-type'] || ''`), and the payload.  Payload bytes are
modelled as characters; only their count and leading values matter here. -/
structure Response where
  statusCode : Nat
  contentType : List Char
  body : List Char

/-- `(res.headers['content-type'] || '').split(';')[0].trim()`. -/
def mimeOf (r : Response) : List Char :=
  trimChars (r.contentType.takeWhile (fun c => ¬ c = ';'))

def pdfMime : List Char := "application/pdf".data

/-- The acceptance test of the batch downloader `downloadPdf` in
`download_car_pdfs.js`: content-type is `application/pdf` and the payload
has at least 10240 bytes.  (Note: no PDF-signature check here.) -/
def carAccept (r : Response) : Bool :=
  decide (mimeOf r = pdfMime) && decide (10240 ≤ r.body.length)

/-- `looksLikePdf(buffer)` from `download_and_convert_caa.js`: at least 5
bytes and the leading bytes are `%PDF-`. -/
def looksLikePdf (body : List Char) : Bool :=
  decide (5 ≤ body.length) && decide (body.take 5 = "%PDF-".data)

/-- Per-entry result record of the batch downloader (`{ok, part, size,
mime, outPath}`), instrumented with the observable retry behaviour: how
many fetch attempts were made and how long `sleep` was awaited. -/
structure CarResult where
  ok : Bool
  part : List Char
  size : Nat
  mime : List Char
  outPath : List Char
  attempts : Nat
  sleptMs : Nat

/-- `downloadPdf(entry, cookieJar)` of `download_car_pdfs.js`, given the
responses `r1`, `r2` the network would deliver for the first and second
attempt: if the first response fails the mime/size test, sleep 400 ms and
fetch once more; the final response's mime/size test decides `ok`. -/
def downloadPdfCar (e : Entry) (r1 r2 : Response) : CarResult :=
  if carAccept r1 then
    ⟨true, zeroPadPart e.part, r1.body.length, mimeOf r1, pdfPath e, 1, 0⟩
  else
    ⟨carAccept r2, zeroPadPart e.part, r2.body.length, mimeOf r2, pdfPath e, 2, 400⟩

/-- A network-level failure (timeout / connection error / redirect-limit),
carrying its message. -/
def NetErr : Type := List Char

/-- `downloadPdf` when each attempt may instead raise a network error:
`fetchWithRedirects` rejects, and `downloadPdf` has no try/catch, so the
error propagates out of `downloadPdf` itself. -/
def downloadPdfCarE (e : Entry) (a1 a2 : Except NetErr Response) :
    Except NetErr CarResult :=
  match a1 with
  | Except.error err => Except.error err
  | Except.ok r1 =>
    if carAccept r1 then
      Except.ok (downloadPdfCar e r1 r1)
    else
      match a2 with
      | Except.error err => Except.error err
      | Except.ok r2 => Except.ok (downloadPdfCar e r1 r2)

/-- The `main` loop of `download_car_pdfs.js` over the manifest: each entry
is awaited in turn; a rejection (`ok: false`) is pushed into `results` and
the loop continues, but an exception thrown by `downloadPdf` propagates and
ends the loop (it is only caught by the top-level `main().catch` handler,
which exits the process). -/
def runBatch : List (Entry × Except NetErr Response × Except NetErr Response) →
    Except NetErr (List CarResult)
  | [] => Except.ok []
  | (e, a1, a2) :: rest =>
    match downloadPdfCarE e a1 a2 with
    | Except.error err => Except.error err
    | Except.ok r =>
      match runBatch rest with
      | Except.error err => Except.error err
      | Except.ok rs => Except.ok (r :: rs)

/-- A concrete manifest entry used in counterexamples. -/
def entry0 : Entry := ⟨1, "Part One".data, "https://example.test/p1.pdf".data, none, none⟩

/-- A response that is served as `application/pdf` and large enough, but
whose payload does not begin with the PDF signature. -/
def respFakePdf : Response := ⟨200, "application/pdf".data, List.replicate 10240 'A'⟩

def entry1 : Entry := ⟨2, "Part Two".data, "https://example.test/p2.pdf".data, none, none⟩

/-- A genuine PDF response: right content-type, ≥ 10240 bytes, `%PDF-`
signature. -/
def respRealPdf : Response :=
  ⟨200, "application/pdf".data, "%PDF-".data ++ List.replicate 10235 'A'⟩

/-- A rejected response: an HTML anti-automation page. -/
def respHtml : Response := ⟨200, "text/html".data, "<html></html>".data⟩

def netTimeout : NetErr := "ETIMEDOUT".data

def entryLE (a b : Entry) : Prop := a.part ≤ b.part

instance : DecidableRel entryLE := fun a b => Nat.decLe a.part b.part

instance : IsTotal Entry entryLE := ⟨fun a b => Nat.le_total a.part b.part⟩

instance : IsTrans Entry entryLE := ⟨fun _ _ _ h1 h2 => Nat.le_trans h1 h2⟩

def sortEntries (l : List Entry) : List Entry := List.insertionSort entryLE l

/-- `path.isAbsolute` for POSIX paths. -/
def isAbsolutePath (p : List Char) : Bool :=
  match p with
  | [] => false
  | c :: _ => decide (c = '/')

/-- The default markdown artifact path of a part (path segments joined
with `/`). -/
def defaultMdPath (part : Nat) : List Char :=
  "md/car/Part_".data ++ zeroPadPart part ++ ".md".data

/-- The markdown path of a manifest entry as resolved by `combine_md.js`:
a truthy `md` override (absolute, or joined under `md/car/`), else the
default path.  Paths are project-root-relative keys of the file-system
map. -/
def mdPath (e : Entry) : List Char :=
  match e.md with
  | some m =>
    if m = [] then defaultMdPath e.part
    else if isAbsolutePath m then m else "md/car/".data ++ m
  | none => defaultMdPath e.part

/-- The front-matter fields `combine_md.js` reads from a parsed YAML
block. -/
structure Meta where
  source_url : Option (List Char)
  pages : Option Nat
  generated_at : Option (List Char)
deriving DecidableEq

def emptyMeta : Meta := ⟨none, none, none⟩

/-- The index of the first line whose `trim()` is `---` (the `while` scan
of `extractFrontMatterAndBody`). -/
def findDelim : List (List Char) → Option Nat
  | [] => none
  | l :: ls =>
    if trimChars l = "---".data then some 0 else (findDelim ls).map (· + 1)

/-- `extractFrontMatterAndBody(mdText)`: if the first line is not `---`, or
the opening delimiter is never closed, return empty metadata with the whole
text as body; otherwise parse the delimited block (`yamlParse` stands for
`YAML.parse`; `none` models both a parse exception and a `null` result,
which the script turns into `{}`) and return the lines after the closing
delimiter as body. -/
def extractFrontMatterAndBody (yamlParse : List Char → Option Meta)
    (mdText : List Char) : Meta × List Char :=
  match splitLines mdText with
  | [] => (emptyMeta, mdText)
  | l0 :: rest =>
    if trimChars l0 = "---".data then
      match findDelim rest with
      | none => (emptyMeta, mdText)
      | some i =>
        ((yamlParse (joinLines (rest.take i))).getD emptyMeta,
         joinLines (rest.drop (i + 1)))
    else (emptyMeta, mdText)

/-- The `metaBlock` object built per entry (after dropping undefined
fields; `part` and `name` always exist, `source_url` always exists because
the manifest carries a URL). -/
structure MetaBlock where
  part : List Char
  name : List Char
  source_url : List Char
  pages : Option Nat
  generated_at : Option (List Char)

/-- JavaScript `a || b` on an optional string: a defined non-empty string
wins, otherwise the fallback. -/
def jsOrStr (a : Option (List Char)) (b : List Char) : List Char :=
  match a with
  | some s => if s = [] then b else s
  | none => b

def buildMetaBlock (e : Entry) (meta : Meta) : MetaBlock :=
  ⟨zeroPadPart e.part, e.name, jsOrStr meta.source_url e.url,
   meta.pages, meta.generated_at⟩

/-- The `pages` line of the stringified block (absent when the field was
dropped as undefined). -/
def pagesLine (mb : MetaBlock) : List Char :=
  match mb.pages with
  | some n => "pages: ".data ++ (toString n).data ++ ['\n']
  | none => []

/-- The `generated_at` line of the stringified block (absent when the field
was dropped as undefined). -/
def genLine (mb : MetaBlock) : List Char :=
  match mb.generated_at with
  | some g => "generated_at: ".data ++ g ++ ['\n']
  | none => []

/-- `YAML.stringify(metaBlock)`: one `key: value` line per defined field in
insertion order.  (Scalar quoting of the yaml library is not modelled; the
values relevant here — URLs, numeric page counts, timestamps — are emitted
plain, as the library does.) -/
def stringifyMetaBlock (mb : MetaBlock) : List Char :=
  ("part: ".data ++ mb.part ++ ['\n']) ++
  ("name: ".data ++ mb.name ++ ['\n']) ++
  ("source_url: ".data ++ mb.source_url ++ ['\n']) ++
  pagesLine mb ++ genLine mb

/-- The `header` string built per entry. -/
def entryHeader (e : Entry) (meta : Meta) : List Char :=
  "\n\n<!-- BEGIN Part_".data ++ zeroPadPart e.part ++ ": ".data ++ e.name ++
  " -->\n".data ++ "```yaml\n".data ++
  stringifyMetaBlock (buildMetaBlock e meta) ++ "```\n".data

/-- The `footer` string built per entry. -/
def entryFooter (e : Entry) : List Char :=
  "\n<!-- END Part_".data ++ zeroPadPart e.part ++ " -->\n".data

/-- The part pushed for one entry (`header + body.trimEnd() + footer`), or
`none` when the entry's markdown artifact does not exist. -/
def entryChunk (yamlParse : List Char → Option Meta)
    (fs : List Char → Option (List Char)) (e : Entry) : Option (List Char) :=
  match fs (mdPath e) with
  | none => none
  | some raw =>
    let mb := extractFrontMatterAndBody yamlParse raw
    some (entryHeader e mb.1 ++ rstrip mb.2 ++ entryFooter e)

/-- The warning `console.warn`ed for a skipped entry. -/
structure MissWarning where
  part : List Char
  path : List Char
deriving DecidableEq

/-- The `parts` array after the loop: one chunk per manifest entry, in
ascending part order, entries without a backing artifact skipped. -/
def corpusParts (yamlParse : List Char → Option Meta)
    (fs : List Char → Option (List Char)) (entries : List Entry) :
    List (List Char) :=
  (sortEntries entries).filterMap (entryChunk yamlParse fs)

/-- The warnings logged by the loop, in processing order. -/
def corpusWarns (fs : List Char → Option (List Char)) (entries : List Entry) :
    List MissWarning :=
  (sortEntries entries).filterMap fun e =>
    if (fs (mdPath e)).isSome then none
    else some ⟨zeroPadPart e.part, mdPath e⟩

/-- The state machine of `text.replace(/\n{3,}/g, '\n\n')`: `n` counts the
newlines of the current run; each maximal run of `n` newlines is emitted as
`min n 2` newlines. -/
def nsAux : Nat → List Char → List Char
  | n, [] => List.replicate (min n 2) '\n'
  | n, c :: rest =>
    if c = '\n' then nsAux (n + 1) rest
    else List.replicate (min n 2) '\n' ++ c :: nsAux 0 rest

/-- `normalizeSpacing(text)` of `combine_md.js`. -/
def normalizeSpacing (s : List Char) : List Char := nsAux 0 s

def combinedText (yamlParse : List Char → Option Meta)
    (fs : List Char → Option (List Char)) (entries : List Entry) : List Char :=
  normalizeSpacing (joinLines (corpusParts yamlParse fs entries)) ++ ['\n']

/-- The manifest entries that actually contribute a corpus document, in
corpus order. -/
def includedEntries (fs : List Char → Option (List Char))
    (entries : List Entry) : List Entry :=
  (sortEntries entries).filter fun e => (fs (mdPath e)).isSome

/-- The numeric identifiers of the corpus documents, in corpus order. -/
def includedParts (fs : List Char → Option (List Char))
    (entries : List Entry) : List Nat :=
  (includedEntries fs entries).map Entry.part

def runsOK : Nat → List Char → Bool
  | _, [] => true
  | n, c :: rest =>
    if c = '\n' then decide (n + 1 ≤ 2) && runsOK (n + 1) rest
    else runsOK 0 rest

/-! ### Theorems -/
example : normalizeTextToMarkdown "a \n\n\n\n\n\nb".data = "a\n\n\nb".data := by decide

example : normalizeTextToMarkdown "a\n\nb".data = "a\n\nb".data := by decide

example : normalizeTextToMarkdown "".data = "".data := by decide

example : splitLines "a\r\nb".data = [['a'], ['b']] := by decide

theorem dropWhile_idem (p : α → Bool) : ∀ l : List α, (l.dropWhile p).dropWhile p = l.dropWhile p
  | [] => rfl
  | a :: l => by
    by_cases h : p a
    · simp [List.dropWhile_cons, h, dropWhile_idem p l]
    · simp [List.dropWhile_cons, h]

theorem rstrip_idem (l : List Char) : rstrip (rstrip l) = rstrip l := by
  simp [rstrip, dropWhile_idem]

theorem head?_dropWhile_not (p : α → Bool) :
    ∀ l : List α, ∀ c, (l.dropWhile p).head? = some c → p c = false
  | [], c => by simp
  | a :: l, c => by
    by_cases h : p a
    · simp only [List.dropWhile_cons, h, if_true]
      exact head?_dropWhile_not p l c
    · simp only [List.dropWhile_cons, h, if_false, List.head?_cons]
      rintro ⟨rfl⟩
      exact Bool.of_not_eq_true h

theorem rstrip_getLast_not_ws {l : List Char} {c : Char}
    (h : (rstrip l).getLast? = some c) : isWs c = false := by
  rw [rstrip, List.getLast?_reverse] at h
  exact head?_dropWhile_not isWs l.reverse c h

theorem mem_rstrip {c : Char} {l : List Char} (h : c ∈ rstrip l) : c ∈ l := by
  rw [rstrip, List.mem_reverse] at h
  have := (List.dropWhile_sublist isWs (l := l.reverse)).subset h
  rwa [List.mem_reverse] at this

theorem consHead_ne_nil (c : Char) (L : List (List Char)) : consHead c L ≠ [] := by
  cases L <;> simp [consHead]

theorem splitLines_ne_nil : ∀ s : List Char, splitLines s ≠ []
  | [] => by simp [splitLines]
  | [c] => by by_cases h : c = '\n' <;> simp [splitLines, h]
  | c :: d :: rest => by
    by_cases h1 : c = '\n'
    · simp [splitLines, h1]
    · by_cases h2 : c = '\r' ∧ d = '\n'
      · simp [splitLines, h1, h2.1, h2.2]
      · have : (c = '\r' && d = '\n') = false := by
          rcases Decidable.not_and_iff_or_not.mp h2 with h | h <;> simp [h]
        simp only [splitLines, if_neg h1, this, Bool.false_eq_true, if_false]
        exact consHead_ne_nil c _

theorem noLF_splitLines : ∀ s : List Char, ∀ l ∈ splitLines s, '\n' ∉ l
  | [] => by simp [splitLines]
  | [c] => by
    by_cases h : c = '\n' <;> simp [splitLines, h]
    exact fun hc => h hc.symm
  | c :: d :: rest => by
    by_cases h1 : c = '\n'
    · simpa [splitLines, h1] using noLF_splitLines (d :: rest)
    · by_cases h2 : c = '\r' ∧ d = '\n'
      · simpa [splitLines, h1, h2.1, h2.2] using noLF_splitLines rest
      · have hb : (c = '\r' && d = '\n') = false := by
          rcases Decidable.not_and_iff_or_not.mp h2 with h | h <;> simp [h]
        simp only [splitLines, if_neg h1, hb, Bool.false_eq_true, if_false]
        intro l hl
        have ih := noLF_splitLines (d :: rest)
        rcases hL : splitLines (d :: rest) with _ | ⟨l0, ls⟩
        · exact absurd hL (splitLines_ne_nil _)
        · rw [hL] at hl
          simp only [consHead, List.mem_cons] at hl
          rcases hl with rfl | hl
          · intro hm
            rcases List.mem_cons.mp hm with rfl | hm
            · exact h1 rfl
            · exact ih l0 (hL ▸ List.mem_cons_self _ _) hm
          · exact ih l (hL ▸ List.mem_cons_of_mem _ hl)

theorem splitLines_cons_newline : ∀ t : List Char, splitLines ('\n' :: t) = [] :: splitLines t
  | [] => by simp [splitLines]
  | d :: rest => by simp [splitLines]

theorem splitLines_noLF : ∀ l : List Char, '\n' ∉ l → splitLines l = [l]
  | [], _ => rfl
  | [c], h => by
    have : ¬ c = '\n' := fun hc => h (by simp [hc])
    simp [splitLines, this]
  | c :: d :: rest, h => by
    have hc : ¬ c = '\n' := fun hc => h (by simp [hc])
    have hd : ¬ d = '\n' := fun hd => h (by simp [hd])
    have hb : (c = '\r' && d = '\n') = false := by simp [hd]
    have ih := splitLines_noLF (d :: rest) (fun hm => h (List.mem_cons_of_mem _ hm))
    simp [splitLines, hc, hb, ih, consHead]

theorem splitLines_line_append :
    ∀ (l t : List Char), '\n' ∉ l → l.getLast? ≠ some '\r' →
      splitLines (l ++ '\n' :: t) = l :: splitLines t
  | [], t, _, _ => by simpa using splitLines_cons_newline t
  | [c], t, hLF, hCR => by
    have hc : ¬ c = '\n' := fun hc => hLF (by simp [hc])
    have hcr : ¬ c = '\r' := by simpa using hCR
    have hb : (c = '\r' && '\n' = '\n') = false := by simp [hcr]
    cases t with
    | nil => simp [splitLines, hc, hb, hcr, consHead]
    | cons e t' => simp [splitLines, hc, hb, hcr, splitLines_cons_newline, consHead]
  | c :: e :: cs, t, hLF, hCR => by
    have hc : ¬ c = '\n' := fun hc => hLF (by simp [hc])
    have he : ¬ e = '\n' := fun hh => hLF (by simp [hh])
    have hb : (c = '\r' && e = '\n') = false := by simp [he]
    have ih := splitLines_line_append (e :: cs) t
      (fun hm => hLF (List.mem_cons_of_mem _ hm))
      (by rwa [List.getLast?_cons_cons] at hCR)
    simp only [List.cons_append, splitLines, if_neg hc, hb, Bool.false_eq_true, if_false,
      List.append_eq]
    simp only [List.cons_append] at ih
    rw [ih, consHead]

theorem splitLines_joinLines :
    ∀ out : List (List Char), out ≠ [] →
      (∀ l ∈ out, '\n' ∉ l ∧ l.getLast? ≠ some '\r') →
      splitLines (joinLines out) = out
  | [], h, _ => absurd rfl h
  | [l], _, hp => by
    simp only [joinLines]
    exact splitLines_noLF l (hp l (List.mem_singleton_self l)).1
  | l :: l' :: out', _, hp => by
    have h1 := hp l (List.mem_cons_self _ _)
    have ih := splitLines_joinLines (l' :: out') (by simp)
      (fun x hx => hp x (List.mem_cons_of_mem _ hx))
    simp only [joinLines]
    rw [splitLines_line_append l _ h1.1 h1.2]
    rw [ih]

/-- Well-formedness of a line list as produced by the normalizer, relative to
the running blank counter: every line is already stripped, blank lines are
empty, and a leading blank run cannot exceed what the counter allows. -/
theorem compactAux_cons_blank {l : List Char} (bc : Nat) (ls : List (List Char))
    (ht : rstrip l = []) (hbc : bc + 1 ≤ 2) :
    compactAux bc (l :: ls) = [] :: compactAux (bc + 1) ls := by
  simp only [compactAux, ht, if_pos, if_true, hbc]

theorem compactAux_cons_blank_skip {l : List Char} (bc : Nat) (ls : List (List Char))
    (ht : rstrip l = []) (hbc : ¬ bc + 1 ≤ 2) :
    compactAux bc (l :: ls) = compactAux (bc + 1) ls := by
  simp only [compactAux, ht, if_pos, if_false, hbc]

theorem compactAux_cons_nonblank {l : List Char} (bc : Nat) (ls : List (List Char))
    (ht : rstrip l ≠ []) :
    compactAux bc (l :: ls) = rstrip l :: compactAux 0 ls := by
  simp only [compactAux, ht, if_neg, if_false]

theorem blanksOK_cons_blank (bc : Nat) (ls : List (List Char)) :
    blanksOK bc ([] :: ls) ↔ bc + 1 ≤ 2 ∧ blanksOK (bc + 1) ls := by
  simp only [blanksOK, if_pos]

theorem blanksOK_cons_nonblank {l : List Char} (bc : Nat) (ls : List (List Char))
    (hl : l ≠ []) :
    blanksOK bc (l :: ls) ↔ rstrip l = l ∧ l ≠ [] ∧ blanksOK 0 ls := by
  simp only [blanksOK, if_neg hl]

theorem blanksOK_mono : ∀ (ls : List (List Char)) {bc bc' : Nat}, bc ≤ bc' →
    blanksOK bc' ls → blanksOK bc ls
  | [], _, _, _, _ => trivial
  | l :: ls, bc, bc', hle, h => by
    by_cases hl : l = []
    · subst hl
      rw [blanksOK_cons_blank] at h ⊢
      exact ⟨by omega, blanksOK_mono ls (by omega) h.2⟩
    · rwa [blanksOK_cons_nonblank _ _ hl] at h ⊢

theorem blanksOK_compactAux : ∀ (ls : List (List Char)) (bc : Nat),
    blanksOK bc (compactAux bc ls)
  | [], _ => trivial
  | l :: ls, bc => by
    by_cases ht : rstrip l = []
    · by_cases hbc : bc + 1 ≤ 2
      · rw [compactAux_cons_blank bc ls ht hbc, blanksOK_cons_blank]
        exact ⟨hbc, blanksOK_compactAux ls (bc + 1)⟩
      · rw [compactAux_cons_blank_skip bc ls ht hbc]
        exact blanksOK_mono _ (by omega) (blanksOK_compactAux ls (bc + 1))
    · rw [compactAux_cons_nonblank bc ls ht, blanksOK_cons_nonblank _ _ ht]
      exact ⟨rstrip_idem l, ht, blanksOK_compactAux ls 0⟩

theorem compactAux_of_blanksOK : ∀ (ls : List (List Char)) (bc : Nat),
    blanksOK bc ls → compactAux bc ls = ls
  | [], _, _ => rfl
  | l :: ls, bc, h => by
    by_cases hl : l = []
    · subst hl
      rw [blanksOK_cons_blank] at h
      rw [compactAux_cons_blank bc ls (by rfl) h.1,
        compactAux_of_blanksOK ls (bc + 1) h.2]
    · rw [blanksOK_cons_nonblank _ _ hl] at h
      have ht : rstrip l ≠ [] := by rw [h.1]; exact hl
      rw [compactAux_cons_nonblank bc ls ht, h.1,
        compactAux_of_blanksOK ls 0 h.2.2]

theorem mem_compactAux : ∀ (ls : List (List Char)) (bc : Nat) (l' : List Char),
    l' ∈ compactAux bc ls → l' = [] ∨ ∃ l ∈ ls, l' = rstrip l
  | [], _, _, h => absurd h (List.not_mem_nil _)
  | l :: ls, bc, l', h => by
    have step : l' ∈ compactAux (bc + 1) ls ∨ l' ∈ compactAux 0 ls →
        l' = [] ∨ ∃ x ∈ l :: ls, l' = rstrip x := by
      intro hmem
      have : l' = [] ∨ ∃ x ∈ ls, l' = rstrip x := by
        rcases hmem with hmem | hmem
        · exact mem_compactAux ls (bc + 1) l' hmem
        · exact mem_compactAux ls 0 l' hmem
      rcases this with h0 | ⟨x, hx, hrx⟩
      · exact Or.inl h0
      · exact Or.inr ⟨x, List.mem_cons_of_mem _ hx, hrx⟩
    by_cases ht : rstrip l = []
    · by_cases hbc : bc + 1 ≤ 2
      · rw [compactAux_cons_blank bc ls ht hbc, List.mem_cons] at h
        rcases h with rfl | h
        · exact Or.inl rfl
        · exact step (Or.inl h)
      · rw [compactAux_cons_blank_skip bc ls ht hbc] at h
        exact step (Or.inl h)
    · rw [compactAux_cons_nonblank bc ls ht, List.mem_cons] at h
      rcases h with rfl | h
      · exact Or.inr ⟨l, List.mem_cons_self _ _, rfl⟩
      · exact step (Or.inr h)

theorem compactAux_ne_nil : ∀ (l : List Char) (ls : List (List Char)),
    compactAux 0 (l :: ls) ≠ [] := by
  intro l ls
  by_cases ht : rstrip l = []
  · rw [compactAux_cons_blank 0 ls ht (by omega)]; simp
  · rw [compactAux_cons_nonblank 0 ls ht]; simp

/-- Properties of the lines produced by the normalizer: stripped (no trailing
whitespace), free of `\n`, and not ending in `\r`. -/
theorem compactAux_line_props {s : List Char} {l' : List Char}
    (h : l' ∈ compactAux 0 (splitLines s)) :
    rstrip l' = l' ∧ '\n' ∉ l' ∧ l'.getLast? ≠ some '\r' := by
  rcases mem_compactAux _ 0 l' h with rfl | ⟨l, hl, rfl⟩
  · exact ⟨rfl, List.not_mem_nil _, by simp⟩
  · refine ⟨rstrip_idem l, ?_, ?_⟩
    · exact fun hm => noLF_splitLines s l hl (mem_rstrip hm)
    · intro hlast
      have := rstrip_getLast_not_ws hlast
      simp [isWs] at this

/-- Re-splitting the normalizer's output recovers exactly the compacted
lines: the normalizer's join and a subsequent split are inverse on its
output. -/
theorem splitLines_normalize (s : List Char) :
    splitLines (normalizeTextToMarkdown s) = compactAux 0 (splitLines s) := by
  unfold normalizeTextToMarkdown
  set out := compactAux 0 (splitLines s) with hout
  have hne : out ≠ [] := by
    rcases hsp : splitLines s with _ | ⟨l, ls⟩
    · exact absurd hsp (splitLines_ne_nil s)
    · rw [hout, hsp]; exact compactAux_ne_nil l ls
  have hprops : ∀ l ∈ out, '\n' ∉ l ∧ l.getLast? ≠ some '\r' := by
    intro l hl
    exact (compactAux_line_props (hout ▸ hl)).2
  exact splitLines_joinLines out hne hprops

/-- Claim C4: the markdown normalizer is idempotent. -/
theorem normalizeTextToMarkdown_idem (s : List Char) :
    normalizeTextToMarkdown (normalizeTextToMarkdown s) = normalizeTextToMarkdown s := by
  conv_lhs => rw [normalizeTextToMarkdown, splitLines_normalize,
    compactAux_of_blanksOK _ 0 (blanksOK_compactAux _ 0)]
  rfl

example : normalizeTextToMarkdown (normalizeTextToMarkdown "x \n\n\n\n y\r\nz".data) =
    normalizeTextToMarkdown "x \n\n\n\n y\r\nz".data := normalizeTextToMarkdown_idem _

/-- Bounded-blank-run check over a line list, carrying the length `n` of the
current run of blank (whitespace-only) lines: `true` iff no run of 3 or more
consecutive blank lines occurs. -/
theorem blRunsOK_of_blanksOK : ∀ (ls : List (List Char)) (bc : Nat),
    blanksOK bc ls → blRunsOK bc ls = true
  | [], _, _ => rfl
  | l :: ls, bc, h => by
    by_cases hl : l = []
    · subst hl
      rw [blanksOK_cons_blank] at h
      simp only [blRunsOK, rstrip, List.reverse_nil, List.dropWhile_nil, if_pos,
        Bool.and_eq_true, decide_eq_true_eq]
      exact ⟨h.1, blRunsOK_of_blanksOK ls (bc + 1) h.2⟩
    · rw [blanksOK_cons_nonblank _ _ hl] at h
      have ht : rstrip l ≠ [] := by rw [h.1]; exact hl
      simp only [blRunsOK, ht, if_neg, if_false]
      exact blRunsOK_of_blanksOK ls 0 h.2.2

/-- Claim C5: the normalizer's output has no run of 3 or more consecutive
blank lines and no trailing per-line whitespace; 5 consecutive blank lines
collapse to exactly 2, and runs of 1 or 2 blank lines are left unchanged. -/
theorem normalize_blank_line_invariants :
    (∀ s : List Char,
      blRunsOK 0 (splitLines (normalizeTextToMarkdown s)) = true ∧
      (splitLines (normalizeTextToMarkdown s)).all noTrailWS = true) ∧
    normalizeTextToMarkdown "a\n\n\n\n\n\nb".data = "a\n\n\nb".data ∧
    normalizeTextToMarkdown "a\n\nb".data = "a\n\nb".data ∧
    normalizeTextToMarkdown "a\n\n\nb".data = "a\n\n\nb".data := by
  refine ⟨fun s => ⟨?_, ?_⟩, by decide, by decide, by decide⟩
  · rw [splitLines_normalize]
    exact blRunsOK_of_blanksOK _ 0 (blanksOK_compactAux _ 0)
  · rw [splitLines_normalize, List.all_eq_true]
    intro l hl
    exact decide_eq_true (compactAux_line_props hl).1

/-! ### Manifest entries and the resilient fetcher (`download_car_pdfs.js`) -/

/-- A manifest entry of `car.yaml`: numeric part code, display name, source
URL, and optional overriding artifact paths.  The manifest always carries a
numeric `part` and a `url`; `md`/`pdf` are genuinely optional. -/
example : zeroPadPart 12 = "012".data := by decide

example : zeroPadPart 1000 = "1000".data := by decide

/-- `computeDefaultPdfPath(part)` (path segments joined with `/`). -/
theorem carAccept_respFakePdf : carAccept respFakePdf = true := by
  unfold carAccept respFakePdf
  rw [Bool.and_eq_true, decide_eq_true_eq, decide_eq_true_eq]
  constructor
  · decide
  · rw [List.length_replicate]

theorem looksLikePdf_respFakePdf : looksLikePdf respFakePdf.body = false := by
  unfold looksLikePdf respFakePdf
  rw [Bool.and_eq_false_iff]
  right
  rw [decide_eq_false_iff_not]
  intro h
  rw [List.take_replicate, show (5 : Nat) ⊓ 10240 = 5 from by decide] at h
  exact absurd h (by decide)

/-- Counterexample to claim C1: a fetch whose responses carry content-type
`application/pdf` and 10240 bytes but no `%PDF-` signature is nevertheless
accepted (`ok = true`), so `ok` is not equivalent to the three-condition
validation. -/
theorem fetch_ok_not_triple_check :
    ¬ ((downloadPdfCar entry0 respFakePdf respFakePdf).ok = true ↔
        (mimeOf respFakePdf = pdfMime ∧ 10240 ≤ respFakePdf.body.length ∧
         looksLikePdf respFakePdf.body = true)) := by
  intro h
  have hok : (downloadPdfCar entry0 respFakePdf respFakePdf).ok = true := by
    unfold downloadPdfCar
    rw [if_pos (by rw [carAccept_respFakePdf])]
  have := (h.mp hok).2.2
  rw [looksLikePdf_respFakePdf] at this
  exact Bool.false_ne_true this

/-- Claim C1 (amended): the batch downloader's fetch result is `ok` iff
some attempt's response has content-type `application/pdf` and at least
10240 bytes; the PDF signature plays no role in this check. -/
theorem downloadPdf_ok_iff (e : Entry) (r1 r2 : Response) :
    (downloadPdfCar e r1 r2).ok = true ↔
      ((mimeOf r1 = pdfMime ∧ 10240 ≤ r1.body.length) ∨
       (mimeOf r2 = pdfMime ∧ 10240 ≤ r2.body.length)) := by
  unfold downloadPdfCar
  by_cases h1 : carAccept r1 = true
  · rw [if_pos h1]
    unfold carAccept at h1
    rw [Bool.and_eq_true, decide_eq_true_eq, decide_eq_true_eq] at h1
    simp only [true_iff]
    exact Or.inl h1
  · rw [if_neg h1]
    unfold carAccept at h1 ⊢
    rw [Bool.and_eq_true, decide_eq_true_eq, decide_eq_true_eq] at h1 ⊢
    constructor
    · exact fun h => Or.inr h
    · rintro (h | h)
      · exact absurd h h1
      · exact h

/-- A second concrete manifest entry. -/
theorem downloadPdfCarE_ok (e : Entry) (r1 r2 : Response) :
    downloadPdfCarE e (Except.ok r1) (Except.ok r2) =
      Except.ok (downloadPdfCar e r1 r2) := by
  unfold downloadPdfCarE
  dsimp only
  by_cases h : carAccept r1 = true
  · rw [if_pos h]
    unfold downloadPdfCar
    rw [if_pos h, if_pos h]
  · rw [if_neg h]

theorem runBatch_responses (batch : List (Entry × Response × Response)) :
    runBatch (batch.map fun b => (b.1, Except.ok b.2.1, Except.ok b.2.2)) =
      Except.ok (batch.map fun b => downloadPdfCar b.1 b.2.1 b.2.2) := by
  induction batch with
  | nil => rfl
  | cons b rest ih =>
    simp only [List.map_cons, runBatch, downloadPdfCarE_ok, ih]

/-- Counterexample to claim C2: a batch whose first entry hits a network
timeout on both attempts, followed by an entry whose fetch would succeed.
The timeout is not converted into a per-document failure result: it
propagates, the whole batch evaluates to that error, and the second entry
is never processed. -/
theorem runBatch_network_error_aborts :
    runBatch [(entry0, Except.error netTimeout, Except.error netTimeout),
              (entry1, Except.ok respRealPdf, Except.ok respRealPdf)] =
      Except.error netTimeout := rfl

/-- Claim C2 (amended): a network/timeout error raised during an entry's
fetch (on either attempt) is not caught per document — it propagates out of
the batch loop, aborting processing of all remaining entries; only
validation rejections become per-document `ok := false` results, and a
batch whose attempts all yield responses completes with one result per
entry. -/
theorem network_error_aborts_batch :
    (∀ (e : Entry) (err : NetErr) (a2 : Except NetErr Response)
       (rest : List (Entry × Except NetErr Response × Except NetErr Response)),
       runBatch ((e, Except.error err, a2) :: rest) = Except.error err) ∧
    (∀ (e : Entry) (err : NetErr) (r1 : Response)
       (rest : List (Entry × Except NetErr Response × Except NetErr Response)),
       carAccept r1 = false →
       runBatch ((e, Except.ok r1, Except.error err) :: rest) = Except.error err) ∧
    (∀ batch : List (Entry × Response × Response),
       runBatch (batch.map fun b => (b.1, Except.ok b.2.1, Except.ok b.2.2)) =
         Except.ok (batch.map fun b => downloadPdfCar b.1 b.2.1 b.2.2)) := by
  refine ⟨fun e err a2 rest => rfl, fun e err r1 rest h1 => ?_, runBatch_responses⟩
  show (match downloadPdfCarE e (Except.ok r1) (Except.error err) with
    | Except.error err => Except.error err
    | Except.ok r =>
      match runBatch rest with
      | Except.error err => Except.error err
      | Except.ok rs => Except.ok (r :: rs)) = Except.error err
  unfold downloadPdfCarE
  dsimp only
  rw [if_neg (by rw [h1]; exact Bool.false_ne_true)]

/-- Witness for the amended claim C2 at concrete inputs. -/
theorem network_error_aborts_batch_witness :
    runBatch [(entry0, Except.ok respHtml, Except.error netTimeout)] =
      Except.error netTimeout :=
  network_error_aborts_batch.2.1 entry0 netTimeout respHtml [] (by decide)

/-- Claim C3: at most two fetch attempts are made per document; when the
first response fails validation the downloader sleeps 400 ms and retries
exactly once, a second validation failure yields `ok := false`, and a batch
whose attempts all yield responses is never aborted (every entry produces a
result). -/
theorem downloadPdf_retry_once :
    (∀ (e : Entry) (r1 r2 : Response), (downloadPdfCar e r1 r2).attempts ≤ 2) ∧
    (∀ (e : Entry) (r1 r2 : Response), carAccept r1 = false →
       (downloadPdfCar e r1 r2).attempts = 2 ∧
       (downloadPdfCar e r1 r2).sleptMs = 400 ∧
       (carAccept r2 = false → (downloadPdfCar e r1 r2).ok = false)) ∧
    (∀ (e : Entry) (r1 : Response), carAccept r1 = true →
       (downloadPdfCar e r1 r1).attempts = 1) ∧
    (∀ batch : List (Entry × Response × Response),
       runBatch (batch.map fun b => (b.1, Except.ok b.2.1, Except.ok b.2.2)) =
         Except.ok (batch.map fun b => downloadPdfCar b.1 b.2.1 b.2.2)) := by
  refine ⟨fun e r1 r2 => ?_, fun e r1 r2 h1 => ?_, fun e r1 h1 => ?_, runBatch_responses⟩
  · unfold downloadPdfCar
    by_cases h : carAccept r1 = true
    · rw [if_pos h]
      show (1 : Nat) ≤ 2
      decide
    · rw [if_neg h]
  · have hneg : ¬ carAccept r1 = true := by rw [h1]; exact Bool.false_ne_true
    unfold downloadPdfCar
    rw [if_neg hneg]
    exact ⟨rfl, rfl, fun h2 => h2⟩
  · unfold downloadPdfCar
    rw [if_pos h1]

/-- Witness for claim C3 at concrete inputs: an HTML response is rejected
twice, causing exactly two attempts, a 400 ms wait, and a failed result. -/
theorem downloadPdf_retry_once_witness :
    (downloadPdfCar entry0 respHtml respHtml).attempts = 2 ∧
    (downloadPdfCar entry0 respHtml respHtml).sleptMs = 400 ∧
    (downloadPdfCar entry0 respHtml respHtml).ok = false := by
  have h := downloadPdf_retry_once.2.1 entry0 respHtml respHtml (by decide)
  exact ⟨h.1, h.2.1, h.2.2 (by decide)⟩

/-! ### The corpus combiner (`combine_md.js`) -/

/-- The sort relation of `[...entries].sort((a, b) => (a.part || 0) - (b.part || 0))`:
ascending numeric part.  JavaScript `sort` is a stable sort with respect to
this comparator, which `List.insertionSort` models exactly. -/
example : normalizeSpacing "a\n\n\n\nb\n\nc".data = "a\n\nb\n\nc".data := by decide

/-- `normalizeSpacing(parts.join('\n')) + '\n'` — the final combined corpus
text. -/
theorem filterMap_eq_map_filter {α β : Type} (g : α → Option β) (d : β) :
    ∀ l : List α,
      l.filterMap g = (l.filter fun a => (g a).isSome).map fun a => (g a).getD d
  | [] => rfl
  | a :: l => by
    cases h : g a with
    | none =>
      simp only [List.filterMap_cons, h, List.filter_cons, Option.isSome_none,
        Bool.false_eq_true, if_false]
      exact filterMap_eq_map_filter g d l
    | some b =>
      simp only [List.filterMap_cons, h, List.filter_cons, Option.isSome_some, if_true,
        List.map_cons, Option.getD_some]
      rw [filterMap_eq_map_filter g d l]

theorem entryChunk_isSome (yamlParse : List Char → Option Meta)
    (fs : List Char → Option (List Char)) (e : Entry) :
    (entryChunk yamlParse fs e).isSome = (fs (mdPath e)).isSome := by
  cases h : fs (mdPath e) <;> simp [entryChunk, h]

/-- Claim C6: the combined corpus lists its documents in ascending order of
numeric identifier — the corpus parts are exactly the chunks of the sorted,
existing entries, their identifier sequence is sorted, it does not depend
on the manifest order, and the manifest order [087, 012, 100] yields corpus
order [012, 087, 100]. -/
theorem corpus_order_sorted :
    (∀ (fs : List Char → Option (List Char)) (entries : List Entry),
       List.Sorted (· ≤ ·) (includedParts fs entries)) ∧
    (∀ (yamlParse : List Char → Option Meta) (fs : List Char → Option (List Char))
       (entries : List Entry),
       corpusParts yamlParse fs entries =
         (includedEntries fs entries).map fun e => (entryChunk yamlParse fs e).getD []) ∧
    (∀ (fs : List Char → Option (List Char)) (l1 l2 : List Entry),
       l1.Perm l2 → includedParts fs l1 = includedParts fs l2) ∧
    includedParts (fun _ => some "x".data)
      [⟨87, "A".data, "uA".data, none, none⟩,
       ⟨12, "B".data, "uB".data, none, none⟩,
       ⟨100, "C".data, "uC".data, none, none⟩] = [12, 87, 100] := by
  have hsorted : ∀ (fs : List Char → Option (List Char)) (entries : List Entry),
      List.Sorted (· ≤ ·) (includedParts fs entries) := by
    intro fs entries
    have hs : List.Sorted entryLE (sortEntries entries) :=
      List.sorted_insertionSort entryLE entries
    have hf : List.Pairwise entryLE (includedEntries fs entries) :=
      List.Pairwise.filter _ hs
    exact hf.map Entry.part (fun a b h => h)
  refine ⟨hsorted, fun yamlParse fs entries => ?_, fun fs l1 l2 hperm => ?_, by decide⟩
  · unfold corpusParts includedEntries
    rw [filterMap_eq_map_filter (entryChunk yamlParse fs) []]
    have : ∀ e : Entry, ((entryChunk yamlParse fs e).isSome = (fs (mdPath e)).isSome) :=
      entryChunk_isSome yamlParse fs
    simp only [this]
  · have hp : List.Perm (includedParts fs l1) (includedParts fs l2) := by
      unfold includedParts includedEntries sortEntries
      exact ((((List.perm_insertionSort entryLE l1).trans hperm).trans
        (List.perm_insertionSort entryLE l2).symm).filter _).map _
    exact List.eq_of_perm_of_sorted hp (hsorted fs l1) (hsorted fs l2)

/-- Witness for claim C6: swapping two manifest entries leaves the corpus
identifier order unchanged. -/
theorem corpus_order_sorted_witness :
    includedParts (fun _ => some "x".data) [entry0, entry1] =
      includedParts (fun _ => some "x".data) [entry1, entry0] :=
  corpus_order_sorted.2.2.1 (fun _ => some "x".data) [entry0, entry1] [entry1, entry0]
    (List.Perm.swap entry1 entry0 [])

/-- Claim C7: a document whose front matter states a `source_url` X and a
page count N produces a corpus metadata block containing `source_url: X`
and `pages: N` verbatim; when the front matter lacks a `source_url`, the
block carries the manifest entry's URL instead; and the metadata block is
embedded verbatim in the entry's corpus chunk. -/
theorem corpus_metadata_provenance (e : Entry) (meta : Meta) :
    (∀ X : List Char, meta.source_url = some X → X ≠ [] →
       ∃ u v, stringifyMetaBlock (buildMetaBlock e meta) =
         u ++ ("source_url: ".data ++ X ++ ['\n']) ++ v) ∧
    (∀ N : Nat, meta.pages = some N →
       ∃ u v, stringifyMetaBlock (buildMetaBlock e meta) =
         u ++ ("pages: ".data ++ (toString N).data ++ ['\n']) ++ v) ∧
    (meta.source_url = none →
       ∃ u v, stringifyMetaBlock (buildMetaBlock e meta) =
         u ++ ("source_url: ".data ++ e.url ++ ['\n']) ++ v) ∧
    (∀ (yamlParse : List Char → Option Meta) (fs : List Char → Option (List Char))
       (raw : List Char), fs (mdPath e) = some raw →
       ∃ u v, entryChunk yamlParse fs e =
         some (u ++ stringifyMetaBlock
           (buildMetaBlock e (extractFrontMatterAndBody yamlParse raw).1) ++ v)) := by
  refine ⟨fun X hX hXne => ?_, fun N hN => ?_, fun hnone => ?_,
    fun yamlParse fs raw hraw => ?_⟩
  · refine ⟨"part: ".data ++ (buildMetaBlock e meta).part ++ ['\n'] ++
      ("name: ".data ++ (buildMetaBlock e meta).name ++ ['\n']),
      pagesLine (buildMetaBlock e meta) ++ genLine (buildMetaBlock e meta), ?_⟩
    have hsrc : (buildMetaBlock e meta).source_url = X := by
      simp [buildMetaBlock, jsOrStr, hX, hXne]
    simp only [stringifyMetaBlock, hsrc, List.append_assoc]
  · refine ⟨"part: ".data ++ (buildMetaBlock e meta).part ++ ['\n'] ++
      ("name: ".data ++ (buildMetaBlock e meta).name ++ ['\n']) ++
      ("source_url: ".data ++ (buildMetaBlock e meta).source_url ++ ['\n']),
      genLine (buildMetaBlock e meta), ?_⟩
    have hp : pagesLine (buildMetaBlock e meta) =
        "pages: ".data ++ (toString N).data ++ ['\n'] := by
      simp [pagesLine, buildMetaBlock, hN]
    simp only [stringifyMetaBlock, hp, List.append_assoc]
  · refine ⟨"part: ".data ++ (buildMetaBlock e meta).part ++ ['\n'] ++
      ("name: ".data ++ (buildMetaBlock e meta).name ++ ['\n']),
      pagesLine (buildMetaBlock e meta) ++ genLine (buildMetaBlock e meta), ?_⟩
    have hsrc : (buildMetaBlock e meta).source_url = e.url := by
      simp [buildMetaBlock, jsOrStr, hnone]
    simp only [stringifyMetaBlock, hsrc, List.append_assoc]
  · refine ⟨"\n\n<!-- BEGIN Part_".data ++ zeroPadPart e.part ++ ": ".data ++ e.name ++
      " -->\n".data ++ "```yaml\n".data,
      "```\n".data ++ rstrip (extractFrontMatterAndBody yamlParse raw).2 ++
        entryFooter e, ?_⟩
    unfold entryChunk
    rw [hraw]
    unfold entryHeader
    simp [List.append_assoc]

/-- Witness for claim C7 at a concrete entry and front matter. -/
theorem corpus_metadata_provenance_witness :
    (∃ u v, stringifyMetaBlock (buildMetaBlock entry0
        ⟨some "https://caa.test/doc.pdf".data, some 5, none⟩) =
      u ++ ("source_url: ".data ++ "https://caa.test/doc.pdf".data ++ ['\n']) ++ v) ∧
    (∃ u v, stringifyMetaBlock (buildMetaBlock entry0
        ⟨some "https://caa.test/doc.pdf".data, some 5, none⟩) =
      u ++ ("pages: ".data ++ (toString 5).data ++ ['\n']) ++ v) ∧
    (∃ u v, stringifyMetaBlock (buildMetaBlock entry0 ⟨none, none, none⟩) =
      u ++ ("source_url: ".data ++ entry0.url ++ ['\n']) ++ v) := by
  have h1 := corpus_metadata_provenance entry0
    ⟨some "https://caa.test/doc.pdf".data, some 5, none⟩
  have h2 := corpus_metadata_provenance entry0 ⟨none, none, none⟩
  exact ⟨h1.1 _ rfl (by decide), h1.2.1 5 rfl, h2.2.2.1 rfl⟩

/-- Claim C8: a manifest entry whose backing markdown artifact does not
exist contributes a recorded warning and is omitted from the corpus, which
equals the corpus of the remaining (sorted) entries; the combine operation
still completes and its output text is that of the remaining entries. -/
theorem missing_artifact_skipped (yamlParse : List Char → Option Meta)
    (fs : List Char → Option (List Char)) (entries : List Entry) (e : Entry)
    (hmem : e ∈ entries) (hmiss : fs (mdPath e) = none) :
    (⟨zeroPadPart e.part, mdPath e⟩ : MissWarning) ∈ corpusWarns fs entries ∧
    (∀ pre post, sortEntries entries = pre ++ e :: post →
       corpusParts yamlParse fs entries =
         (pre ++ post).filterMap (entryChunk yamlParse fs) ∧
       combinedText yamlParse fs entries =
         normalizeSpacing (joinLines ((pre ++ post).filterMap (entryChunk yamlParse fs)))
           ++ ['\n']) := by
  have hchunk : entryChunk yamlParse fs e = none := by
    unfold entryChunk
    rw [hmiss]
  constructor
  · have hmem' : e ∈ sortEntries entries :=
      ((List.perm_insertionSort entryLE entries).symm.mem_iff).mp hmem
    unfold corpusWarns
    rw [List.mem_filterMap]
    exact ⟨e, hmem', by rw [hmiss]; rfl⟩
  · intro pre post hdecomp
    have hparts : corpusParts yamlParse fs entries =
        (pre ++ post).filterMap (entryChunk yamlParse fs) := by
      unfold corpusParts
      rw [hdecomp, List.filterMap_append, List.filterMap_append, List.filterMap_cons,
        hchunk]
    exact ⟨hparts, by unfold combinedText; rw [hparts]⟩

/-- Witness for claim C8 at a concrete manifest: `entry1` has no artifact,
`entry0` does. -/
theorem missing_artifact_skipped_witness :
    (⟨zeroPadPart entry1.part, mdPath entry1⟩ : MissWarning) ∈
      corpusWarns (fun p => if p = mdPath entry0 then some "hello".data else none)
        [entry0, entry1] ∧
    corpusParts (fun _ => none)
        (fun p => if p = mdPath entry0 then some "hello".data else none)
        [entry0, entry1] =
      [entry0].filterMap (entryChunk (fun _ => none)
        (fun p => if p = mdPath entry0 then some "hello".data else none)) := by
  have h := missing_artifact_skipped (fun _ => none)
    (fun p => if p = mdPath entry0 then some "hello".data else none)
    [entry0, entry1] entry1 (by decide) (by decide)
  exact ⟨h.1, (h.2 [entry0] [] (by decide)).1⟩

/-- Newline-run check: `true` iff, starting with `n` newlines already seen
in the current run, no run of 3 or more consecutive `\n` characters occurs. -/
theorem runsOK_cons_newline (n : Nat) (rest : List Char) :
    runsOK n ('\n' :: rest) = (decide (n + 1 ≤ 2) && runsOK (n + 1) rest) := by
  simp [runsOK]

theorem runsOK_cons_other {c : Char} (hc : ¬ c = '\n') (n : Nat) (rest : List Char) :
    runsOK n (c :: rest) = runsOK 0 rest := by
  simp [runsOK, hc]

theorem runsOK_prepend {a : Char} (ha : ¬ a = '\n') {s : List Char}
    (hs : runsOK 0 s = true) :
    ∀ k : Nat, k ≤ 2 → runsOK 0 (List.replicate k '\n' ++ a :: s) = true := by
  intro k hk
  match k, hk with
  | 0, _ =>
    rw [List.replicate_zero, List.nil_append, runsOK_cons_other ha]
    exact hs
  | 1, _ =>
    rw [show List.replicate 1 '\n' ++ a :: s = '\n' :: a :: s from rfl,
      runsOK_cons_newline, runsOK_cons_other ha]
    simp [hs]
  | 2, _ =>
    rw [show List.replicate 2 '\n' ++ a :: s = '\n' :: '\n' :: a :: s from rfl,
      runsOK_cons_newline, runsOK_cons_newline, runsOK_cons_other ha]
    simp [hs]

theorem runsOK_replicate : ∀ k : Nat, k ≤ 2 → runsOK 0 (List.replicate k '\n') = true := by
  intro k hk
  match k, hk with
  | 0, _ => rfl
  | 1, _ => rfl
  | 2, _ => rfl

theorem min_le_two (n : Nat) : min n 2 ≤ 2 := Nat.min_le_right n 2

theorem runsOK_nsAux : ∀ (s : List Char) (n : Nat), runsOK 0 (nsAux n s) = true
  | [], n => by
    rw [nsAux]
    exact runsOK_replicate _ (min_le_two n)
  | c :: rest, n => by
    by_cases hc : c = '\n'
    · subst hc
      rw [show nsAux n ('\n' :: rest) = nsAux (n + 1) rest from by rw [nsAux]; simp]
      exact runsOK_nsAux rest (n + 1)
    · rw [show nsAux n (c :: rest) =
          List.replicate (min n 2) '\n' ++ c :: nsAux 0 rest from by
        rw [nsAux]; simp [hc]]
      exact runsOK_prepend hc (runsOK_nsAux rest 0) _ (min_le_two n)

/-- If the input to `normalizeSpacing` ends in a non-newline character
followed by a single newline, so does the output, and appending one more
newline still leaves every newline run at length ≤ 2. -/
theorem nsAux_tail_suffix {c : Char} (hc : ¬ c = '\n') :
    ∀ (u : List Char) (n : Nat),
      ∃ t, nsAux n (u ++ [c, '\n']) = t ++ [c, '\n'] ∧
        runsOK 0 (t ++ [c, '\n', '\n']) = true
  | [], n => by
    refine ⟨List.replicate (min n 2) '\n', ?_, ?_⟩
    · rw [List.nil_append,
        show nsAux n [c, '\n'] =
          List.replicate (min n 2) '\n' ++ c :: nsAux 0 ['\n'] from by
          rw [nsAux]; simp [hc]]
      rfl
    · exact runsOK_prepend hc (by rfl) _ (min_le_two n)
  | a :: u', n => by
    by_cases ha : a = '\n'
    · subst ha
      obtain ⟨t, ht, hok⟩ := nsAux_tail_suffix hc u' (n + 1)
      refine ⟨t, ?_, hok⟩
      rw [List.cons_append,
        show nsAux n ('\n' :: (u' ++ [c, '\n'])) = nsAux (n + 1) (u' ++ [c, '\n']) from by
          rw [nsAux]; simp]
      exact ht
    · obtain ⟨t, ht, hok⟩ := nsAux_tail_suffix hc u' 0
      refine ⟨List.replicate (min n 2) '\n' ++ a :: t, ?_, ?_⟩
      · rw [List.cons_append,
          show nsAux n (a :: (u' ++ [c, '\n'])) =
            List.replicate (min n 2) '\n' ++ a :: nsAux 0 (u' ++ [c, '\n']) from by
            rw [nsAux]; simp [ha],
          ht]
        simp [List.append_assoc]
      · rw [List.append_assoc, List.cons_append]
        exact runsOK_prepend ha hok _ (min_le_two n)

/-- Every entry chunk ends in the characters `>` then `\n` (the tail of its
footer `... -->\n`). -/
theorem entryChunk_suffix (yamlParse : List Char → Option Meta)
    (fs : List Char → Option (List Char)) (e : Entry) (cnk : List Char)
    (h : entryChunk yamlParse fs e = some cnk) :
    ∃ u, cnk = u ++ ['>', '\n'] := by
  unfold entryChunk at h
  cases hfs : fs (mdPath e) with
  | none => rw [hfs] at h; exact absurd h (by simp)
  | some raw =>
    rw [hfs] at h
    simp only [Option.some.injEq] at h
    refine ⟨entryHeader e (extractFrontMatterAndBody yamlParse raw).1 ++
      rstrip (extractFrontMatterAndBody yamlParse raw).2 ++
      ("\n<!-- END Part_".data ++ zeroPadPart e.part ++ " --".data), ?_⟩
    rw [← h]
    unfold entryFooter
    simp only [List.append_assoc, List.cons_append, List.nil_append]

/-- The join of a list ending with element `p` ends with `p`. -/
theorem joinLines_getLast_suffix :
    ∀ (ps : List (List Char)) (p : List Char), ∃ u, joinLines (ps ++ [p]) = u ++ p
  | [], p => ⟨[], rfl⟩
  | a :: ps', p => by
    obtain ⟨u, hu⟩ := joinLines_getLast_suffix ps' p
    cases ps' with
    | nil => exact ⟨a ++ ['\n'], by simp [joinLines]⟩
    | cons b ps'' =>
      refine ⟨a ++ '\n' :: u, ?_⟩
      rw [List.cons_append, show joinLines (a :: ((b :: ps'') ++ [p])) =
        a ++ '\n' :: joinLines ((b :: ps'') ++ [p]) from rfl, hu]
      simp

/-- Claim C9 (amended): the combined corpus text never contains a run of 3
or more newline characters (so no run of 3+ blank lines survives between
documents), and it ends with a newline; when at least one document was
included it ends with exactly the two newline characters contributed by the
last footer and the final appended `'\n'` — not with a single one. -/
theorem combined_spacing (yamlParse : List Char → Option Meta)
    (fs : List Char → Option (List Char)) (entries : List Entry) :
    runsOK 0 (combinedText yamlParse fs entries) = true ∧
    (∃ u, combinedText yamlParse fs entries = u ++ ['\n']) ∧
    (corpusParts yamlParse fs entries ≠ [] →
      ∃ u, combinedText yamlParse fs entries = u ++ ['\n', '\n']) := by
  by_cases hps : corpusParts yamlParse fs entries = []
  · unfold combinedText normalizeSpacing
    rw [hps]
    exact ⟨rfl, ⟨[], rfl⟩, fun h => absurd rfl h⟩
  · have hsplit : corpusParts yamlParse fs entries =
        (corpusParts yamlParse fs entries).dropLast ++
          [(corpusParts yamlParse fs entries).getLast hps] :=
      (List.dropLast_append_getLast hps).symm
    have hlast_mem : (corpusParts yamlParse fs entries).getLast hps ∈
        corpusParts yamlParse fs entries := List.getLast_mem hps
    obtain ⟨e, _, hce⟩ := List.mem_filterMap.mp hlast_mem
    obtain ⟨w, hw⟩ := entryChunk_suffix yamlParse fs e _ hce
    obtain ⟨u0, hu0⟩ := joinLines_getLast_suffix
      (corpusParts yamlParse fs entries).dropLast
      ((corpusParts yamlParse fs entries).getLast hps)
    have hjoin : joinLines (corpusParts yamlParse fs entries) =
        (u0 ++ w) ++ ['>', '\n'] := by
      conv_lhs => rw [hsplit]
      rw [hu0, hw, List.append_assoc]
    obtain ⟨t, ht, hok⟩ := nsAux_tail_suffix (by decide : ¬ '>' = '\n') (u0 ++ w) 0
    have hcomb : combinedText yamlParse fs entries = t ++ ['>', '\n', '\n'] := by
      unfold combinedText normalizeSpacing
      rw [hjoin, ht]
      simp
    refine ⟨?_, ⟨t ++ ['>', '\n'], ?_⟩, fun _ => ⟨t ++ ['>'], ?_⟩⟩
    · rw [hcomb]; exact hok
    · rw [hcomb]; simp
    · rw [hcomb]; simp

/-- Counterexample to claim C9's trailing-newline clause: with one manifest
entry whose artifact exists, the combined corpus text ends with two newline
characters, not exactly one. -/
theorem combined_two_trailing_newlines :
    (combinedText (fun _ => none) (fun _ => some "hello".data) [entry0]).reverse.take 2 =
      ['\n', '\n'] := by decide

/-- Witness for the amended claim C9 at a concrete nonempty corpus. -/
theorem combined_spacing_witness :
    runsOK 0 (combinedText (fun _ => none) (fun _ => some "hello".data) [entry0]) = true ∧
    (∃ u, combinedText (fun _ => none) (fun _ => some "hello".data) [entry0] =
      u ++ ['\n', '\n']) := by
  have h := combined_spacing (fun _ => none) (fun _ => some "hello".data) [entry0]
  exact ⟨h.1, h.2.2 (by decide)⟩

theorem findDelim_none : ∀ ls : List (List Char),
    (∀ l ∈ ls, trimChars l ≠ "---".data) → findDelim ls = none
  | [], _ => rfl
  | l :: ls, h => by
    rw [findDelim, if_neg (h l (List.mem_cons_self _ _)),
      findDelim_none ls (fun x hx => h x (List.mem_cons_of_mem _ hx))]
    rfl

theorem findDelim_append : ∀ (pre : List (List Char)) (d : List Char)
    (post : List (List Char)),
    (∀ l ∈ pre, trimChars l ≠ "---".data) → trimChars d = "---".data →
    findDelim (pre ++ d :: post) = some pre.length
  | [], d, post, _, hd => by
    rw [List.nil_append, findDelim, if_pos hd]
    rfl
  | l :: pre, d, post, hpre, hd => by
    rw [List.cons_append, findDelim, if_neg (hpre l (List.mem_cons_self _ _)),
      findDelim_append pre d post (fun x hx => hpre x (List.mem_cons_of_mem _ hx)) hd]
    rfl

/-- Claim C10: front-matter extraction is total and never loses text.  If
the first line is not `---`, or the opening delimiter is never closed, the
whole text is returned unchanged as the body with empty metadata; if the
delimited block's YAML fails to parse, the metadata is empty and the body
is everything after the closing delimiter. -/
theorem extract_front_matter_total (yamlParse : List Char → Option Meta)
    (mdText : List Char) :
    (trimChars ((splitLines mdText).headD []) ≠ "---".data →
       extractFrontMatterAndBody yamlParse mdText = (emptyMeta, mdText)) ∧
    ((∀ l ∈ (splitLines mdText).tail, trimChars l ≠ "---".data) →
       extractFrontMatterAndBody yamlParse mdText = (emptyMeta, mdText)) ∧
    (∀ (l0 d : List Char) (pre post : List (List Char)),
       splitLines mdText = l0 :: (pre ++ d :: post) →
       trimChars l0 = "---".data →
       (∀ l ∈ pre, trimChars l ≠ "---".data) →
       trimChars d = "---".data →
       yamlParse (joinLines pre) = none →
       extractFrontMatterAndBody yamlParse mdText = (emptyMeta, joinLines post)) := by
  refine ⟨?_, ?_, ?_⟩
  · intro h
    rcases hsp : splitLines mdText with _ | ⟨l0, rest⟩
    · exact absurd hsp (splitLines_ne_nil _)
    · rw [hsp, List.headD_cons] at h
      simp only [extractFrontMatterAndBody, hsp]
      rw [if_neg h]
  · intro h
    rcases hsp : splitLines mdText with _ | ⟨l0, rest⟩
    · exact absurd hsp (splitLines_ne_nil _)
    · rw [hsp, List.tail_cons] at h
      simp only [extractFrontMatterAndBody, hsp]
      by_cases h0 : trimChars l0 = "---".data
      · rw [if_pos h0, findDelim_none rest h]
      · rw [if_neg h0]
  · intro l0 d pre post hsp h0 hpre hd hparse
    simp only [extractFrontMatterAndBody, hsp]
    rw [if_pos h0, findDelim_append pre d post hpre hd]
    dsimp only
    have htake : (pre ++ d :: post).take pre.length = pre := List.take_left pre (d :: post)
    have hdrop : (pre ++ d :: post).drop (pre.length + 1) = post := by
      rw [show pre ++ d :: post = (pre ++ [d]) ++ post from by simp]
      exact List.drop_left' (by simp)
    rw [htake, hdrop, hparse]
    rfl

/-- Witness for claim C10 at concrete inputs: text without front matter is
returned whole; a front-matter block with unparsable YAML yields empty
metadata and the text after the closing delimiter. -/
theorem extract_front_matter_total_witness :
    extractFrontMatterAndBody (fun _ => none) "hello\nworld".data =
      (emptyMeta, "hello\nworld".data) ∧
    extractFrontMatterAndBody (fun _ => none) "---\nbad: [yaml\n---\nbody".data =
      (emptyMeta, "body".data) := by
  constructor
  · exact (extract_front_matter_total (fun _ => none) "hello\nworld".data).1 (by decide)
  · exact (extract_front_matter_total (fun _ => none) "---\nbad: [yaml\n---\nbody".data).2.2
      "---".data "---".data ["bad: [yaml".data] ["body".data] (by decide) (by decide)
      (by decide) (by decide) rfl

end AskCaaNz
